import Mathlib

/-!
Verification of the kindle-sender extraction pipeline.

This file gives a shallow embedding of the parts of the repository that the
claims are about:

* `src/epub_generator.py` — `sanitize_text_for_kindle` (text sanitizer);
* `src/domain_handlers.py` — the domain handler registry, the Substack and
  Cenital handlers, `get_handler`, `run_pre_validation`, `run_post_processing`;
* `src/article_downloader.py` — `extract_article` (URL mode, structural
  fallback tier) and `extract_from_file` (file mode), over an HTML tree model;
* `src/utils.py` — `rename_html_file` with POSIX `os.path` semantics;
* `src/kindle_sender.py` — the control-flow decisions of
  `InteractiveMode._handle_url_source` and `CommandLineMode._extract_article`.

Strings are modelled as `List Char` (named `Str`), matching Python's `str` as
a sequence of code points.  Python regex and `unicodedata` operations are
modelled per character; where the full Unicode character database is needed
(decomposition, categories, the classes matched by the regex escapes), the
development is parameterised by a `UnicodeModel` whose fields carry exactly
those tables, together with hypotheses that the real tables satisfy.
-/

namespace KS

/-- Strings are lists of characters (Python `str` as a code-point sequence). -/
abbrev Str := List Char

/-- Shorthand turning a Lean string literal into the `List Char` model. -/
def str (s : String) : Str := s.data

/-- Python `\s` / `str.strip` whitespace, restricted to the ASCII whitespace
characters that actually occur in the extraction pipeline. -/
def isPySpace (c : Char) : Bool :=
  c == ' ' || c == '\t' || c == '\n' || c == '\r' || c == '\x0b' || c == '\x0c'

/-- Python `str.strip()`: drop whitespace from both ends. -/
def pyStrip (l : Str) : Str := (l.dropWhile isPySpace).rdropWhile isPySpace

/-- Leftmost occurrence split: `splitFirst pat l = some (pre, post)` when
`l = pre ++ pat ++ post` at the first occurrence of `pat`; `none` when `pat`
does not occur in `l`.  This models Python's `in`, `str.split(pat)[0]` and
first-occurrence search. -/
def splitFirst (pat : Str) : Str → Option (Str × Str)
  | [] => if pat = [] then some ([], []) else none
  | c :: cs =>
    if pat.isPrefixOf (c :: cs) then some ([], (c :: cs).drop pat.length)
    else
      match splitFirst pat cs with
      | some (pre, post) => some (c :: pre, post)
      | none => none

/-- Python `pat in l` (substring containment). -/
def occursStr (pat l : Str) : Bool := (splitFirst pat l).isSome

/-- Fuel-driven core of `str.replace(pat, "")`; the fuel is an upper bound on
the number of scanning steps, so `replaceGo pat l.length l` performs the full
left-to-right scan. -/
def replaceGo (pat : Str) : Nat → Str → Str
  | _, [] => []
  | 0, l => l
  | fuel + 1, c :: cs =>
    if pat.isPrefixOf (c :: cs) then replaceGo pat fuel ((c :: cs).drop pat.length)
    else c :: replaceGo pat fuel cs

/-- Python `l.replace(pat, "")` for a non-empty pattern: delete every
(leftmost-first, non-overlapping) occurrence of `pat`. -/
def pyReplace (l pat : Str) : Str :=
  if pat = [] then l else replaceGo pat l.length l

/-! ## HTML document model

A parsed document (BeautifulSoup `soup`) is a forest of nodes; a node is a
text node (`NavigableString`) or an element with a tag name, a `class`
attribute (list of class tokens) and children. -/

mutual
/-- One HTML node: a text node or an element with tag, classes and children. -/
inductive Node where
  | text (s : Str)
  | elem (tag : Str) (classes : List Str) (children : NodeList)
/-- A sequence of sibling nodes. -/
inductive NodeList where
  | nil
  | cons (n : Node) (ns : NodeList)
end

/-- Build a `NodeList` from a plain list (for writing concrete documents). -/
def NodeList.ofList : List Node → NodeList
  | [] => .nil
  | n :: ns => .cons n (NodeList.ofList ns)

mutual
/-- All text fragments of a node, in document order (the strings BeautifulSoup
`get_text` iterates over). -/
def nodeTexts : Node → List Str
  | .text s => [s]
  | .elem _ _ ch => listTexts ch
/-- All text fragments of a node list, in document order. -/
def listTexts : NodeList → List Str
  | .nil => []
  | .cons n ns => nodeTexts n ++ listTexts ns
end

/-- BeautifulSoup `get_text(strip=True)`: strip every text fragment and
concatenate (the empty separator makes dropped empty fragments invisible). -/
def getTextStrip (n : Node) : Str := ((nodeTexts n).map pyStrip).flatten

mutual
/-- First node (pre-order: a node before its children, children left to
right) satisfying `p`; this is BeautifulSoup `find` / `select_one`. -/
def findFirstN (p : Node → Bool) : Node → Option Node
  | .text s => if p (.text s) then some (.text s) else none
  | .elem t c ch =>
    if p (.elem t c ch) then some (.elem t c ch) else findFirstL p ch
/-- First node of a forest (pre-order) satisfying `p`. -/
def findFirstL (p : Node → Bool) : NodeList → Option Node
  | .nil => none
  | .cons n ns =>
    match findFirstN p n with
    | some r => some r
    | none => findFirstL p ns
end

mutual
/-- All nodes of a subtree satisfying `p`, in document order; a matching
element's own descendants are still searched (BeautifulSoup `find_all`). -/
def findAllN (p : Node → Bool) : Node → List Node
  | .text s => if p (.text s) then [.text s] else []
  | .elem t c ch =>
    (if p (.elem t c ch) then [Node.elem t c ch] else []) ++ findAllL p ch
/-- All nodes of a forest satisfying `p`, in document order. -/
def findAllL (p : Node → Bool) : NodeList → List Node
  | .nil => []
  | .cons n ns => findAllN p n ++ findAllL p ns
end

mutual
/-- All nodes of a subtree (the node itself and its descendants), pre-order. -/
def descN : Node → List Node
  | .text s => [.text s]
  | .elem t c ch => Node.elem t c ch :: descL ch
/-- All nodes of a forest, pre-order. -/
def descL : NodeList → List Node
  | .nil => []
  | .cons n ns => descN n ++ descL ns
end

/-- Append two node lists. -/
def appendNL : NodeList → NodeList → NodeList
  | .nil, ms => ms
  | .cons n ns, ms => .cons n (appendNL ns ms)

mutual
/-- `Tag.decompose` for every element whose tag is in `bad`: remove those
subtrees entirely (used for script/style/nav/footer/header/aside/form). -/
def removeN (bad : List Str) : Node → NodeList
  | .text s => .cons (.text s) .nil
  | .elem t c ch =>
    if t ∈ bad then .nil else .cons (.elem t c (removeL bad ch)) .nil
/-- Remove banned-tag subtrees from a forest. -/
def removeL (bad : List Str) : NodeList → NodeList
  | .nil => .nil
  | .cons n ns => appendNL (removeN bad n) (removeL bad ns)
end

/-- Does this node match a tag-name test? (text nodes never match). -/
def tagIs (t : Str) : Node → Bool
  | .text _ => false
  | .elem tg _ _ => tg == t

/-- A CSS selector of the two shapes the repository uses: a bare tag name
(`article`, `main`) or a class selector (`.content`, `.article-content`,
`.post-content`). -/
inductive Selector where
  | tag (t : Str)
  | cls (c : Str)

/-- Does a node match a selector? -/
def matchesSel : Selector → Node → Bool
  | .tag t, n => tagIs t n
  | .cls _, .text _ => false
  | .cls c, .elem _ cls _ => cls.contains c

/-- Try selectors in order, `select_one` each against the forest; first hit
wins (the loop over
`['article', 'main', '.content', '.article-content', '.post-content']`). -/
def selectFirst : List Selector → NodeList → Option Node
  | [], _ => none
  | s :: ss, f =>
    match findFirstL (matchesSel s) f with
    | some n => some n
    | none => selectFirst ss f

/-! ## URL parsing and the domain handler registry (`src/domain_handlers.py`) -/

/-- `urlparse(url).netloc` for the URL shapes the program handles: the
characters between `"://"` (or a leading `"//"`) and the next `/`, `?` or `#`;
empty when the input has no network-location part (e.g. a plain file path). -/
def netloc (url : Str) : Str :=
  match splitFirst (str "://") url with
  | some (_, rest) => rest.takeWhile (fun c => !(c == '/' || c == '?' || c == '#'))
  | none =>
    if (str "//").isPrefixOf url then
      (url.drop 2).takeWhile (fun c => !(c == '/' || c == '?' || c == '#'))
    else []

/-- `if domain.startswith('www.'): domain = domain[4:]`. -/
def stripWww (d : Str) : Str := if (str "www.").isPrefixOf d then d.drop 4 else d

/-- The two registered domain handlers (`SubstackHandler`, `CenitalHandler`). -/
inductive Handler where
  | substack
  | cenital
deriving DecidableEq

/-- The registry contents after `DomainHandlerRegistry.__init__`: insertion
order of the `_handlers` dict. -/
def handlers : List (Str × Handler) :=
  [(str "substack.com", Handler.substack), (str "cenital.com", Handler.cenital)]

/-- The lookup core of `get_handler`, on the already-normalized domain: exact
dict lookup first, then the first registered domain `hd` (in registration
order) with `domain.endswith("." + hd)`. -/
def resolveDomain (domain : Str) : Option Handler :=
  match handlers.find? (fun p => p.1 == domain) with
  | some p => some p.2
  | none =>
    match handlers.find? (fun p => (('.' :: p.1).isSuffixOf domain : Bool)) with
    | some p => some p.2
    | none => none

/-- `DomainHandlerRegistry.get_handler`: empty URL yields no handler; parse
the netloc, strip a leading `www.`, then resolve. -/
def get_handler (url : Str) : Option Handler :=
  if url = [] then none
  else resolveDomain (stripWww (netloc url))

/-- `SubstackHandler.pre_validation`'s fixed refusal message. -/
def substackMessage : Str :=
  str "Substack articles require JavaScript to render content and cannot be extracted automatically. Consider saving the article as HTML from your browser and using the 'From a HTML File' option instead."

/-- `pre_validation` per handler: Substack always refuses with its message;
Cenital inherits the base-class default `(True, None)`. -/
def pre_validation : Handler → Str → Bool × Option Str
  | .substack, _ => (false, some substackMessage)
  | .cenital, _ => (true, none)

/-- `re.sub(r'\n{3,}', '\n\n', s)` — helper emitting a counted newline run:
runs of three or more newlines become exactly two. -/
def nlEmit (k : Nat) (rest : Str) : Str :=
  (if 3 ≤ k then ['\n', '\n'] else List.replicate k '\n') ++ rest

mutual
/-- `re.sub(r'\n{3,}', '\n\n', s)`: scan the string, collapsing every maximal
run of three or more newlines to exactly two. -/
def collapseNewlines : Str → Str
  | [] => []
  | c :: cs =>
    if c = '\n' then nlRun 1 cs else c :: collapseNewlines cs
/-- Inside a run of newlines of length `k` so far. -/
def nlRun (k : Nat) : Str → Str
  | [] => nlEmit k []
  | c :: cs =>
    if c = '\n' then nlRun (k + 1) cs else nlEmit k (c :: collapseNewlines cs)
end

/-- The `"Otras lecturas"` trailing-section marker of `CenitalHandler`. -/
def otrasMarker : Str := str "Otras lecturas"

/-- The fixed subscription-appeal paragraph removed by `CenitalHandler`. -/
def subscriptionText : Str :=
  str "¿Por qué pagar por algo que puedo leer gratis? En Cenital entendemos al periodismo como un servicio público. Por eso nuestras notas siempre estarán accesibles para todos. Pero investigar es caro y la parte más ardua del trabajo periodístico no se ve. Por eso le pedimos a quienes puedan que se sumen a nuestro círculo de Mejores amigos y nos permitan seguir creciendo. Si te gusta lo que hacemos, sumate vos también. Sumate"

/-- First step of `CenitalHandler.post_processing`: when `"Otras lecturas"`
occurs, keep only the stripped text before its first occurrence
(`content.split("Otras lecturas")[0].strip()`). -/
def truncOtras (content : Str) : Str :=
  match splitFirst otrasMarker content with
  | some (pre, _) => pyStrip pre
  | none => content

/-- Second step of `CenitalHandler.post_processing`: when the subscription
paragraph occurs, delete it (`content.replace(subscription_text, "").strip()`)
and collapse newline runs of length three or more down to two. -/
def removeSubscription (c1 : Str) : Str :=
  if occursStr subscriptionText c1 then
    collapseNewlines (pyStrip (pyReplace c1 subscriptionText))
  else c1

/-- The composed body rewrite of `CenitalHandler.post_processing`. -/
def cenital_content (content : Str) : Str :=
  removeSubscription (truncOtras content)

/-- `post_processing` per handler: Substack inherits the identity default;
Cenital rewrites the body via `cenital_content`. -/
def post_processing : Handler → Str → Str → Str × Str
  | .substack, title, content => (title, content)
  | .cenital, title, content => (title, cenital_content content)

/-- `DomainHandlerRegistry.run_pre_validation`. -/
def run_pre_validation (url : Str) : Bool × Option Str :=
  match get_handler url with
  | some h => pre_validation h url
  | none => (true, none)

/-- `DomainHandlerRegistry.run_post_processing`. -/
def run_post_processing (url title content : Str) : Str × Str :=
  match get_handler url with
  | some h => post_processing h title content
  | none => (title, content)

/-! ## Mode control flow (`src/kindle_sender.py`) -/

/-- What `InteractiveMode._handle_url_source` decides to do with the entered
URL before any network activity. -/
inductive UrlOutcome where
  | backToMenu
  | proceedToExtraction
deriving DecidableEq

/-- The control flow of `InteractiveMode._handle_url_source` up to the point
where extraction (and hence the HTML fetch) would start: an empty URL returns
to the menu; a pre-validation refusal with a truthy (non-empty) message
returns to the menu; otherwise extraction proceeds. -/
def interactive_handle_url (url : Str) : UrlOutcome :=
  if url = [] then .backToMenu
  else
    match run_pre_validation url with
    | (false, some m) => if m ≠ [] then .backToMenu else .proceedToExtraction
    | _ => .proceedToExtraction

/-- Which source `CommandLineMode._extract_article` extracts from. -/
inductive CliSource where
  | fromUrl (u : Str)
  | fromFile (f : Str)
  | cliError
deriving DecidableEq

/-- The branch structure of `CommandLineMode._extract_article`: a truthy
`--url` argument goes straight to URL extraction (no pre-validation), else a
truthy `--file` argument goes to file extraction, else an error is raised. -/
def cli_extract_source (argUrl argFile : Option Str) : CliSource :=
  match argUrl with
  | some u => if u ≠ [] then .fromUrl u else
      match argFile with
      | some f => if f ≠ [] then .fromFile f else .cliError
      | none => .cliError
  | none =>
    match argFile with
    | some f => if f ≠ [] then .fromFile f else .cliError
    | none => .cliError

/-! ## POSIX path operations and `rename_html_file` (`src/utils.py`) -/

/-- `os.path.basename` (POSIX): the part after the last `/` (the whole path
when it has no `/`). -/
def basenamePath (p : Str) : Str :=
  (p.reverse.takeWhile (fun c => !(c == '/'))).reverse

/-- `p[:i]` where `i = p.rfind('/') + 1`: the complement of the basename,
including every trailing slash. -/
def headPart (p : Str) : Str := p.take (p.length - (basenamePath p).length)

/-- `os.path.dirname` (POSIX): the head part with trailing slashes stripped,
unless it is empty or consists solely of slashes. -/
def dirnamePath (p : Str) : Str :=
  let head := headPart p
  if head ≠ [] ∧ head.any (fun c => !(c == '/')) then
    head.rdropWhile (fun c => c == '/')
  else head

/-- `os.path.join(a, b)` (POSIX, two components): `b` if it is absolute; else
`a ++ b` when `a` is empty or ends in a slash; else `a ++ "/" ++ b`. -/
def pathJoin (a b : Str) : Str :=
  if b.head? = some '/' then b
  else if a = [] ∨ a.getLast? = some '/' then a ++ b
  else a ++ '/' :: b

/-- The `"[SENT] "` marker prepended to sent files. -/
def sentMarker : Str := str "[SENT] "

/-- `rename_html_file(file_path)` (`src/utils.py`, lines 42–63), modelled on
the success path of `os.rename` (the caught-exception branch returns the
original path and is not part of the renaming logic): a falsy path yields
`None`; a basename already starting with `"[SENT] "` is returned unchanged;
otherwise the file moves to the same directory under `"[SENT] " + basename`. -/
def rename_html_file (p : Str) : Option Str :=
  if p = [] then none
  else
    let directory := dirnamePath p
    let filename := basenamePath p
    if sentMarker.isPrefixOf filename then some p
    else some (pathJoin directory (sentMarker ++ filename))

/-! ## Content extraction (`src/article_downloader.py`)

`extract_article` and `extract_from_file` are modelled over an already parsed
document (`NodeList`).  The newspaper3k tier of `extract_article` is an
external library call; it is abstracted as an optional `(title, text)` result
(`none` models both an import failure and a raised exception).  The network
fetch is abstracted as an optional parsed document (`none` models a network
error, which the surrounding `except` turns into the generic failure).
Author extraction is omitted from the model: it feeds only the independent
`author` field and never influences the title or the body. -/

/-- The tags removed before content extraction. -/
def badTags : List Str :=
  [str "script", str "style", str "nav", str "footer", str "header",
   str "aside", str "form"]

/-- The main-content selector priority list. -/
def contentSelectors : List Selector :=
  [Selector.tag (str "article"), Selector.tag (str "main"),
   Selector.cls (str "content"), Selector.cls (str "article-content"),
   Selector.cls (str "post-content")]

/-- Main-content container: first selector hit, else the `<body>` element. -/
def mainContentOf (forest : NodeList) : Option Node :=
  match selectFirst contentSelectors forest with
  | some n => some n
  | none => findFirstL (tagIs (str "body")) forest

/-- Is this node a `<p>`, `<h2>`, `<h3>` or `<h4>` element? -/
def isPH (n : Node) : Bool :=
  tagIs (str "p") n || tagIs (str "h2") n || tagIs (str "h3") n ||
    tagIs (str "h4") n

/-- `main_content.find_all(['p', 'h2', 'h3', 'h4'])`: matching descendants of
the container (the container itself excluded), in document order. -/
def findAllPH (mc : Node) : List Node :=
  match mc with
  | .text _ => []
  | .elem _ _ ch => findAllL isPH ch

/-- The descendants of a container node (the container itself excluded), in
document order: the scope of `find_all` on the chosen main content. -/
def descendantsUnder (mc : Node) : List Node :=
  match mc with
  | .text _ => []
  | .elem _ _ ch => descL ch

/-- `"\n\n".join(blocks)`. -/
def joinBlocks : List Str → Str
  | [] => []
  | [b] => b
  | b :: bs => b ++ '\n' :: '\n' :: joinBlocks bs

/-- The body text the structural tier builds from a container:
`"\n\n".join([el.get_text(strip=True) for el in content_elements if
el.get_text(strip=True)])`. -/
def containerContent (mc : Node) : Str :=
  joinBlocks (((findAllPH mc).map getTextStrip).filter (fun b => b ≠ []))

/-- URL-mode title (line 139): first `<h1>`'s stripped text if an `<h1>`
exists, else `urlparse(url).netloc`. -/
def urlTitle (doc : NodeList) (url : Str) : Str :=
  match findFirstL (tagIs (str "h1")) doc with
  | some h => getTextStrip h
  | none => netloc url

/-- File-mode fallback title: `os.path.basename(file_path).replace('.html', '')`
(note: `replace` removes every occurrence of `.html`, not just an extension). -/
def fileFallbackTitle (path : Str) : Str := pyReplace (basenamePath path) (str ".html")

/-- File-mode title (lines 186–194): the `<title>` element's stripped text if a
`<title>` exists, **else** the first `<h1>`'s stripped text; if the result is
still empty (no such element, or its text is empty), the file name with
`.html` removed. -/
def fileTitle (doc : NodeList) (path : Str) : Str :=
  let t0 : Option Str :=
    match findFirstL (tagIs (str "title")) doc with
    | some t => some (getTextStrip t)
    | none =>
      match findFirstL (tagIs (str "h1")) doc with
      | some h => some (getTextStrip h)
      | none => none
  match t0 with
  | some s => if s = [] then fileFallbackTitle path else s
  | none => fileFallbackTitle path

/-- `extract_article(url)` (lines 94–173): the newspaper tier returns its
result (post-processed) when both fields are non-empty; otherwise the
structural fallback runs on the fetched document: title from `<h1>`/netloc,
non-content tags removed, main container located (else `<body>`), paragraph
and h2–h4 blocks joined; empty title or body raises, success is
post-processed.  Any exception surfaces as the generic `ValueError`. -/
def extract_article (tier1 : Option (Str × Str)) (fetched : Option NodeList)
    (url : Str) : Except Str (Str × Str) :=
  match tier1 with
  | some (t, c) =>
    if t ≠ [] ∧ c ≠ [] then .ok (run_post_processing url t c)
    else extractFallback fetched url
  | none => extractFallback fetched url
where
  /-- The BeautifulSoup fallback branch of `extract_article`: `title` is
  `urlTitle doc url`, `doc2` is the document after tag removal, and
  `content` is `containerContent mc`. -/
  extractFallback (fetched : Option NodeList) (url : Str) :
      Except Str (Str × Str) :=
    match fetched with
    | none => .error (str "Failed to extract article content: network error")
    | some doc =>
      match mainContentOf (removeL badTags doc) with
      | none => .error (str "Failed to extract article content: no content")
      | some mc =>
        if urlTitle doc url = [] ∨ containerContent mc = [] then
          .error (str "Failed to extract article content: Could not extract article content")
        else .ok (run_post_processing url (urlTitle doc url) (containerContent mc))

/-- The body text of `extract_from_file` before the final emptiness check:
the container's block content, or — when that is empty — the whole `<body>`'s
stripped text (`soup.body.get_text(strip=True)`; a missing `<body>` raises). -/
def fileContent (doc2 : NodeList) (mc : Node) : Except Str Str :=
  if containerContent mc ≠ [] then .ok (containerContent mc)
  else
    match findFirstL (tagIs (str "body")) doc2 with
    | some b => .ok (getTextStrip b)
    | none => .error (str "Failed to extract article content from file: no body")

/-- `extract_from_file(file_path)` (lines 175–235): title via `fileTitle`,
non-content tags removed, main container located (else `<body>`), blocks
joined; an empty block body falls back to the whole `<body>`'s stripped text;
a still-empty body raises.  Success is post-processed keyed by the file path. -/
def extract_from_file (doc : NodeList) (path : Str) : Except Str (Str × Str) :=
  match mainContentOf (removeL badTags doc) with
  | none => .error (str "Failed to extract article content from file: no content")
  | some mc =>
    match fileContent (removeL badTags doc) mc with
    | .error e => .error e
    | .ok content =>
      if content = [] then
        .error (str "Failed to extract article content from file: Could not extract article content from the file")
      else .ok (run_post_processing path (fileTitle doc path) content)

/-! ## Text sanitizer (`src/epub_generator.py`, `sanitize_text_for_kindle`)

The function uses the Unicode character database through
`unicodedata.normalize('NFD', ·)`, `unicodedata.category` and the regex
classes `\w` / `\s`.  Those tables are parameters of the model:

* `decomp c` — the full canonical (NFD) decomposition of `c`.  NFD also
  canonically reorders combining marks, but every character with non-zero
  combining class has category `Mn` and is dropped by the very next step, so
  per-character decomposition is observationally faithful here.
* `combining c` — `unicodedata.category c == 'Mn'`;
* `wordChar c` — the regex class `\w` (word characters);
* `spaceChar c` — the regex class `\s` (whitespace). -/

/-- The Unicode tables `sanitize_text_for_kindle` consults. -/
structure UnicodeModel where
  decomp : Char → List Char
  combining : Char → Bool
  wordChar : Char → Bool
  spaceChar : Char → Bool

/-- The characters kept by `re.sub(r'[^\w\s\-.,!?():;]', '', ·)` besides word
characters and whitespace. -/
def allowedPunct : List Char := ['-', '.', ',', '!', '?', '(', ')', ':', ';']

/-- Does the filtering step keep this character? -/
def keepChar (u : UnicodeModel) (c : Char) : Bool :=
  u.wordChar c || u.spaceChar c || decide (c ∈ allowedPunct)

mutual
/-- `re.sub(r'\s+', ' ', s)`: replace every maximal run of whitespace by a
single space. -/
def collapseWs (isS : Char → Bool) : Str → Str
  | [] => []
  | c :: cs => if isS c then ' ' :: afterSpace isS cs else c :: collapseWs isS cs
/-- Inside a whitespace run: skip the remaining whitespace. -/
def afterSpace (isS : Char → Bool) : Str → Str
  | [] => []
  | c :: cs => if isS c then afterSpace isS cs else c :: collapseWs isS cs
end

/-- `str.strip()` with an explicit whitespace class. -/
def stripWs (isS : Char → Bool) (l : Str) : Str :=
  (l.dropWhile isS).rdropWhile isS

/-- `sanitize_text_for_kindle(text)` (lines 16–37): falsy input is returned
as-is; otherwise NFD-normalize, drop combining marks, drop characters outside
`[\w\s\-.,!?():;]`, collapse whitespace runs to single spaces, and strip. -/
def sanitize_text_for_kindle (u : UnicodeModel) (text : Str) : Str :=
  if text = [] then text
  else
    stripWs u.spaceChar (collapseWs u.spaceChar
      (((text.flatMap u.decomp).filter (fun c => !u.combining c)).filter
        (keepChar u)))

/-- `sanitize_text_for_kindle` on an optional string: Python's falsy check
covers both `None` and the empty string. -/
def sanitizeOpt (u : UnicodeModel) : Option Str → Option Str
  | none => none
  | some t => some (sanitize_text_for_kindle u t)

/-- A concrete `UnicodeModel` instance that agrees with the Unicode database
on ASCII text: ASCII characters are their own NFD decomposition, none is a
combining mark, `\w` is alphanumerics plus underscore, `\s` is ASCII
whitespace.  Used to evaluate the sanitizer on concrete inputs. -/
def asciiUM : UnicodeModel where
  decomp := fun c => [c]
  combining := fun _ => false
  wordChar := fun c => c.isAlphanum || c == '_'
  spaceChar := isPySpace

/-- Structural well-formedness of collapsed whitespace: every whitespace
character is a literal space and is not followed by another whitespace
character. -/
def spacesOk (isS : Char → Bool) : Str → Bool
  | [] => true
  | [c] => !isS c || c == ' '
  | a :: b :: rest => (!isS a || (a == ' ' && !isS b)) && spacesOk isS (b :: rest)

/-- No three consecutive newline characters anywhere (i.e. at most one blank
line between blocks). -/
def noTripleNl : Str → Bool
  | [] => true
  | a :: rest => !(a == '\n' && rest.take 2 == ['\n', '\n']) && noTripleNl rest

/-! ## Concrete documents and inputs used by the claims -/

/-- A `substack.com` URL, as the claims quantify over them: the normalized
domain is `substack.com` itself or has it as a proper parent. -/
def isSubstackDomain (d : Str) : Prop :=
  d = str "substack.com" ∨ ∃ s, d = s ++ str ".substack.com"

/-- A Cenital body: intro paragraph, the subscription paragraph, four blank
lines (five consecutive newlines), then more text. -/
def cenitalExampleBody : Str :=
  str "Intro" ++ str "\n\n" ++ subscriptionText ++ str "\n\n\n\n\n" ++ str "More"

/-- A Cenital body with a trailing `"Otras lecturas"` section. -/
def cenitalTruncBody : Str :=
  str "Body text." ++ otrasMarker ++ str " Related reading, ads, and so on."

/-- The document of the spec's body-extraction example:
`<div class="article-content"><p>A</p><h2>B</h2></div>` inside a body. -/
def articleContentDoc : NodeList := NodeList.ofList
  [Node.elem (str "html") [] (NodeList.ofList
    [Node.elem (str "body") [] (NodeList.ofList
      [Node.elem (str "div") [str "article-content"] (NodeList.ofList
        [Node.elem (str "p") [] (NodeList.ofList [Node.text (str "A")]),
         Node.elem (str "h2") [] (NodeList.ofList [Node.text (str "B")])])])])]

/-- A document whose only paragraph is exactly the Cenital section marker. -/
def cenitalMarkerDoc : NodeList := NodeList.ofList
  [Node.elem (str "html") [] (NodeList.ofList
    [Node.elem (str "body") [] (NodeList.ofList
      [Node.elem (str "h1") [] (NodeList.ofList [Node.text (str "T")]),
       Node.elem (str "p") [] (NodeList.ofList
         [Node.text (str "Otras lecturas")])])])]

/-- A document with both a `<title>` (text `T`) and a non-empty `<h1>`
(text `H`). -/
def titleAndH1Doc : NodeList := NodeList.ofList
  [Node.elem (str "html") [] (NodeList.ofList
    [Node.elem (str "head") [] (NodeList.ofList
      [Node.elem (str "title") [] (NodeList.ofList [Node.text (str "T")])]),
     Node.elem (str "body") [] (NodeList.ofList
      [Node.elem (str "h1") [] (NodeList.ofList [Node.text (str "H")])])])]

/-! ## Generic helper lemmas -/

theorem takeWhile_append_all {p : Char → Bool} {l₁ : Str} (l₂ : Str)
    (h : ∀ x ∈ l₁, p x = true) :
    List.takeWhile p (l₁ ++ l₂) = l₁ ++ List.takeWhile p l₂ := by
  induction l₁ with
  | nil => rfl
  | cons a t ih =>
    have ha : p a = true := h a (List.mem_cons_self a t)
    simp [List.takeWhile_cons, ha, ih fun x hx => h x (List.mem_cons_of_mem a hx)]

theorem flatMap_id_of_mem {f : Char → List Char} {l : Str}
    (h : ∀ c ∈ l, f c = [c]) : l.flatMap f = l := by
  induction l with
  | nil => rfl
  | cons a t ih =>
    simp [List.flatMap_cons, h a (List.mem_cons_self a t),
      ih fun c hc => h c (List.mem_cons_of_mem a hc)]

theorem splitFirst_eq_none_of_not_occurs {pat l : Str}
    (h : occursStr pat l = false) : splitFirst pat l = none := by
  unfold occursStr at h
  exact Option.not_isSome_iff_eq_none.mp (by simp [h])

theorem not_occurs_cons {pat : Str} {c : Char} {cs : Str}
    (h : occursStr pat (c :: cs) = false) :
    pat.isPrefixOf (c :: cs) = false ∧ occursStr pat cs = false := by
  have h' : (splitFirst pat (c :: cs)).isSome = false := h
  rw [splitFirst] at h'
  by_cases hp : pat.isPrefixOf (c :: cs)
  · rw [if_pos hp] at h'; simp at h'
  · refine ⟨by simp [hp], ?_⟩
    rw [if_neg hp] at h'
    unfold occursStr
    cases hsp : splitFirst pat cs with
    | none => simp
    | some pr => rw [hsp] at h'; cases pr; simp at h'

theorem replaceGo_of_not_occurs {pat l : Str} (h : occursStr pat l = false) :
    ∀ fuel, replaceGo pat fuel l = l := by
  induction l with
  | nil => intro fuel; cases fuel <;> rfl
  | cons c cs ih =>
    intro fuel
    cases fuel with
    | zero => rfl
    | succ n =>
      obtain ⟨hp, ho⟩ := not_occurs_cons h
      simp [replaceGo, hp, ih ho n]

theorem pyReplace_of_not_occurs {pat l : Str} (h : occursStr pat l = false) :
    pyReplace l pat = l := by
  unfold pyReplace
  split
  · rfl
  · exact replaceGo_of_not_occurs h _

theorem truncOtras_of_not_occurs {c : Str}
    (h : occursStr otrasMarker c = false) : truncOtras c = c := by
  unfold truncOtras
  rw [splitFirst_eq_none_of_not_occurs h]

/-! ## Domain-resolution lemmas -/

theorem isSuffixOf_iff_exists_append {hd d : Str} :
    (hd.isSuffixOf d = true) ↔ ∃ s, d = s ++ hd := by
  rw [List.isSuffixOf_iff_suffix]
  exact ⟨fun ⟨t, ht⟩ => ⟨t, ht.symm⟩, fun ⟨s, hs⟩ => ⟨s, hs.symm⟩⟩

theorem not_exists_append_of_length_lt {d suf : Str}
    (h : d.length < suf.length) : ¬ ∃ s, d = s ++ suf := by
  rintro ⟨s, rfl⟩
  rw [List.length_append] at h
  omega

theorem resolveDomain_eq_substack {d : Str} :
    resolveDomain d = some Handler.substack ↔
      d = str "substack.com" ∨
        (d ≠ str "cenital.com" ∧ ∃ s, d = s ++ str ".substack.com") := by
  have hdot : ('.' :: str "substack.com") = str ".substack.com" := rfl
  have hdotc : ('.' :: str "cenital.com") = str ".cenital.com" := rfl
  unfold resolveDomain handlers
  by_cases h1 : str "substack.com" = d
  · rw [List.find?_cons_of_pos _ (by simp [h1])]
    exact iff_of_true rfl (Or.inl h1.symm)
  · rw [List.find?_cons_of_neg _ (by simp [h1])]
    by_cases h2 : str "cenital.com" = d
    · rw [List.find?_cons_of_pos _ (by simp [h2])]
      refine iff_of_false (by simp) ?_
      rintro (h | ⟨hne, _⟩)
      · exact h1 h.symm
      · exact hne h2.symm
    · rw [List.find?_cons_of_neg _ (by simp [h2])]
      simp only [List.find?_nil]
      by_cases h3 : (str ".substack.com").isSuffixOf d
      · rw [List.find?_cons_of_pos _ (by simpa [hdot] using h3)]
        refine iff_of_true rfl (Or.inr ⟨fun h => h2 h.symm, ?_⟩)
        exact isSuffixOf_iff_exists_append.mp h3
      · rw [List.find?_cons_of_neg _ (by simpa [hdot] using h3)]
        by_cases h4 : (str ".cenital.com").isSuffixOf d
        · rw [List.find?_cons_of_pos _ (by simpa [hdotc] using h4)]
          refine iff_of_false (by simp) ?_
          rintro (h | ⟨_, hex⟩)
          · exact h1 h.symm
          · exact h3 (isSuffixOf_iff_exists_append.mpr hex)
        · rw [List.find?_cons_of_neg _ (by simpa [hdotc] using h4)]
          simp only [List.find?_nil]
          refine iff_of_false (by simp) ?_
          rintro (h | ⟨_, hex⟩)
          · exact h1 h.symm
          · exact h3 (isSuffixOf_iff_exists_append.mpr hex)

theorem resolveDomain_eq_cenital {d : Str} :
    resolveDomain d = some Handler.cenital ↔
      d ≠ str "substack.com" ∧
        (d = str "cenital.com" ∨
          ((¬ ∃ s, d = s ++ str ".substack.com") ∧
            ∃ s, d = s ++ str ".cenital.com")) := by
  have hdot : ('.' :: str "substack.com") = str ".substack.com" := rfl
  have hdotc : ('.' :: str "cenital.com") = str ".cenital.com" := rfl
  unfold resolveDomain handlers
  by_cases h1 : str "substack.com" = d
  · rw [List.find?_cons_of_pos _ (by simp [h1])]
    refine iff_of_false (by simp) ?_
    rintro ⟨hne, _⟩
    exact hne h1.symm
  · rw [List.find?_cons_of_neg _ (by simp [h1])]
    by_cases h2 : str "cenital.com" = d
    · rw [List.find?_cons_of_pos _ (by simp [h2])]
      exact iff_of_true rfl ⟨fun h => h1 h.symm, Or.inl h2.symm⟩
    · rw [List.find?_cons_of_neg _ (by simp [h2])]
      simp only [List.find?_nil]
      by_cases h3 : (str ".substack.com").isSuffixOf d
      · rw [List.find?_cons_of_pos _ (by simpa [hdot] using h3)]
        refine iff_of_false (by simp) ?_
        rintro ⟨_, (h | ⟨hns, _⟩)⟩
        · exact h2 h.symm
        · exact hns (isSuffixOf_iff_exists_append.mp h3)
      · rw [List.find?_cons_of_neg _ (by simpa [hdot] using h3)]
        by_cases h4 : (str ".cenital.com").isSuffixOf d
        · rw [List.find?_cons_of_pos _ (by simpa [hdotc] using h4)]
          refine iff_of_true rfl ⟨fun h => h1 h.symm, Or.inr ⟨?_, ?_⟩⟩
          · intro hex
            exact h3 (isSuffixOf_iff_exists_append.mpr hex)
          · exact isSuffixOf_iff_exists_append.mp h4
        · rw [List.find?_cons_of_neg _ (by simpa [hdotc] using h4)]
          simp only [List.find?_nil]
          refine iff_of_false (by simp) ?_
          rintro ⟨_, (h | ⟨_, hex⟩)⟩
          · exact h2 h.symm
          · exact h4 (isSuffixOf_iff_exists_append.mpr hex)

theorem get_handler_of_ne_nil {url : Str} (h : url ≠ []) :
    get_handler url = resolveDomain (stripWww (netloc url)) := by
  unfold get_handler
  rw [if_neg h]

theorem substack_domain_ne_nil {d : Str} (h : isSubstackDomain d) : d ≠ [] := by
  rcases h with h | ⟨s, hs⟩
  · subst h; decide
  · subst hs
    intro hnil
    have := congrArg List.length hnil
    rw [List.length_append] at this
    simp [str] at this

theorem get_handler_of_substack_domain {url : Str}
    (h : isSubstackDomain (stripWww (netloc url))) :
    get_handler url = some Handler.substack := by
  have hurl : url ≠ [] := by
    intro hnil
    subst hnil
    exact substack_domain_ne_nil h rfl
  rw [get_handler_of_ne_nil hurl, resolveDomain_eq_substack]
  rcases h with h | ⟨s, hs⟩
  · exact Or.inl h
  · refine Or.inr ⟨?_, ⟨s, hs⟩⟩
    intro hc
    rw [hc] at hs
    have := congrArg List.length hs
    rw [List.length_append] at this
    simp [str] at this

/-! ## Whitespace-collapse lemmas -/

mutual
theorem mem_collapseWs {isS : Char → Bool} {c : Char} :
    (l : Str) → c ∈ collapseWs isS l → c = ' ' ∨ (c ∈ l ∧ isS c = false)
  | [], h => by simp [collapseWs] at h
  | a :: t, h => by
    rw [collapseWs] at h
    by_cases ha : isS a
    · rw [if_pos ha] at h
      rcases List.mem_cons.mp h with hc | hc
      · exact Or.inl hc
      · rcases mem_afterSpace t hc with hsp | ⟨hm, hns⟩
        · exact Or.inl hsp
        · exact Or.inr ⟨List.mem_cons_of_mem a hm, hns⟩
    · rw [if_neg ha] at h
      rcases List.mem_cons.mp h with hc | hc
      · subst hc
        exact Or.inr ⟨List.mem_cons_self c t, by simpa using ha⟩
      · rcases mem_collapseWs t hc with hsp | ⟨hm, hns⟩
        · exact Or.inl hsp
        · exact Or.inr ⟨List.mem_cons_of_mem a hm, hns⟩

theorem mem_afterSpace {isS : Char → Bool} {c : Char} :
    (l : Str) → c ∈ afterSpace isS l → c = ' ' ∨ (c ∈ l ∧ isS c = false)
  | [], h => by simp [afterSpace] at h
  | a :: t, h => by
    rw [afterSpace] at h
    by_cases ha : isS a
    · rw [if_pos ha] at h
      rcases mem_afterSpace t h with hsp | ⟨hm, hns⟩
      · exact Or.inl hsp
      · exact Or.inr ⟨List.mem_cons_of_mem a hm, hns⟩
    · rw [if_neg ha] at h
      rcases List.mem_cons.mp h with hc | hc
      · subst hc
        exact Or.inr ⟨List.mem_cons_self c t, by simpa using ha⟩
      · rcases mem_collapseWs t hc with hsp | ⟨hm, hns⟩
        · exact Or.inl hsp
        · exact Or.inr ⟨List.mem_cons_of_mem a hm, hns⟩
end

theorem spacesOk_cons_cons {isS : Char → Bool} {a b : Char} {r : Str} :
    spacesOk isS (a :: b :: r) =
      ((!isS a || (a == ' ' && !isS b)) && spacesOk isS (b :: r)) := rfl

theorem spacesOk_tail {isS : Char → Bool} {a : Char} {l : Str}
    (h : spacesOk isS (a :: l) = true) : spacesOk isS l = true := by
  cases l with
  | nil => rfl
  | cons b r =>
    rw [spacesOk_cons_cons] at h
    exact (Bool.and_eq_true_iff.mp h).2

mutual
theorem spacesOk_collapseWs {isS : Char → Bool} :
    (l : Str) → spacesOk isS (collapseWs isS l) = true
  | [] => rfl
  | a :: t => by
    rw [collapseWs]
    by_cases ha : isS a
    · have h2 : ∀ c, (afterSpace isS t).head? = some c → isS c = false :=
        afterSpace_head_not t
      cases hafter : afterSpace isS t with
      | nil => rw [if_pos ha]; simp [spacesOk]
      | cons b r =>
        have h1 : spacesOk isS (afterSpace isS t) = true := spacesOk_afterSpace t
        rw [hafter] at h1
        have hb : isS b = false := h2 b (by rw [hafter]; rfl)
        rw [if_pos ha, spacesOk_cons_cons, h1, Bool.and_true]
        simp [hb]
    · have ha' : isS a = false := by simpa using ha
      cases hcol : collapseWs isS t with
      | nil => rw [if_neg ha]; simp [spacesOk, ha']
      | cons b r =>
        have h1 : spacesOk isS (collapseWs isS t) = true := spacesOk_collapseWs t
        rw [hcol] at h1
        rw [if_neg ha, spacesOk_cons_cons, h1, Bool.and_true]
        simp [ha']

theorem spacesOk_afterSpace {isS : Char → Bool} :
    (l : Str) → spacesOk isS (afterSpace isS l) = true
  | [] => rfl
  | a :: t => by
    rw [afterSpace]
    by_cases ha : isS a
    · rw [if_pos ha]
      exact spacesOk_afterSpace t
    · have ha' : isS a = false := by simpa using ha
      cases hcol : collapseWs isS t with
      | nil => rw [if_neg ha]; simp [spacesOk, ha']
      | cons b r =>
        have h1 : spacesOk isS (collapseWs isS t) = true := spacesOk_collapseWs t
        rw [hcol] at h1
        rw [if_neg ha, spacesOk_cons_cons, h1, Bool.and_true]
        simp [ha']

theorem afterSpace_head_not {isS : Char → Bool} :
    (l : Str) → ∀ c, (afterSpace isS l).head? = some c → isS c = false
  | [], c, h => by simp [afterSpace] at h
  | a :: t, c, h => by
    rw [afterSpace] at h
    by_cases ha : isS a
    · rw [if_pos ha] at h
      exact afterSpace_head_not t c h
    · rw [if_neg ha] at h
      simp only [List.head?_cons, Option.some.injEq] at h
      subst h
      simpa using ha
end

theorem collapseWs_head_spec {isS : Char → Bool} {l : Str} {c : Char}
    (h : (collapseWs isS l).head? = some c) : c = ' ' ∨ isS c = false := by
  cases l with
  | nil => simp [collapseWs] at h
  | cons a t =>
    rw [collapseWs] at h
    by_cases ha : isS a
    · rw [if_pos ha] at h
      simp only [List.head?_cons, Option.some.injEq] at h
      exact Or.inl h.symm
    · rw [if_neg ha] at h
      simp only [List.head?_cons, Option.some.injEq] at h
      subst h
      exact Or.inr (by simpa using ha)

theorem spacesOk_of_prefix {isS : Char → Bool} :
    ∀ {l₁ l : Str}, l₁ <+: l → spacesOk isS l = true → spacesOk isS l₁ = true
  | [], _, _, _ => rfl
  | a :: t₁, l, hpre, h => by
    obtain ⟨t, ht⟩ := hpre
    subst ht
    cases t₁ with
    | nil =>
      simp only [List.cons_append, List.nil_append] at h
      cases hl : t with
      | nil =>
        rw [hl] at h
        simpa [spacesOk] using h
      | cons b r =>
        rw [hl, spacesOk_cons_cons] at h
        have := (Bool.and_eq_true_iff.mp h).1
        rcases Bool.or_eq_true_iff.mp this with hna | hsp
        · simp [spacesOk, hna]
        · simp [spacesOk, (Bool.and_eq_true_iff.mp hsp).1]
    | cons b r₁ =>
      simp only [List.cons_append] at h
      rw [spacesOk_cons_cons] at h
      obtain ⟨h1, h2⟩ := Bool.and_eq_true_iff.mp h
      have ih := spacesOk_of_prefix
        (show b :: r₁ <+: b :: (r₁ ++ t) from ⟨t, by simp⟩)
        (show spacesOk isS (b :: (r₁ ++ t)) = true from by simpa using h2)
      rw [spacesOk_cons_cons, ih, Bool.and_true]
      exact h1

theorem spacesOk_dropWhile {isS : Char → Bool} {p : Char → Bool} :
    ∀ {l : Str}, spacesOk isS l = true → spacesOk isS (l.dropWhile p) = true
  | [], _ => rfl
  | a :: t, h => by
    rw [List.dropWhile_cons]
    split
    · exact spacesOk_dropWhile (spacesOk_tail h)
    · exact h

theorem spacesOk_stripWs {isS : Char → Bool} {p : Char → Bool} {l : Str}
    (h : spacesOk isS l = true) : spacesOk isS ((l.dropWhile p).rdropWhile p) = true :=
  spacesOk_of_prefix (List.rdropWhile_prefix p _) (spacesOk_dropWhile h)

theorem collapseWs_eq_self {isS : Char → Bool} :
    ∀ {l : Str}, spacesOk isS l = true → collapseWs isS l = l
  | [], _ => rfl
  | a :: t, h => by
    rw [collapseWs]
    by_cases ha : isS a
    · rw [if_pos ha]
      have hsp : a = ' ' := by
        cases t with
        | nil => simpa [spacesOk, ha] using h
        | cons b r =>
          rw [spacesOk_cons_cons] at h
          have := (Bool.and_eq_true_iff.mp h).1
          rcases Bool.or_eq_true_iff.mp this with hna | hx
          · rw [ha] at hna; cases hna
          · simpa using (Bool.and_eq_true_iff.mp hx).1
      have hafter : afterSpace isS t = collapseWs isS t := by
        cases t with
        | nil => rfl
        | cons b r =>
          have hb : isS b = false := by
            rw [spacesOk_cons_cons] at h
            have := (Bool.and_eq_true_iff.mp h).1
            rcases Bool.or_eq_true_iff.mp this with hna | hx
            · rw [ha] at hna; cases hna
            · simpa using (Bool.and_eq_true_iff.mp hx).2
          rw [afterSpace, collapseWs, if_neg (by simp [hb]), if_neg (by simp [hb])]
      rw [hafter, collapseWs_eq_self (spacesOk_tail h), hsp]
    · rw [if_neg ha, collapseWs_eq_self (spacesOk_tail h)]

theorem stripWs_eq_self {isS : Char → Bool} {l : Str}
    (hh : ∀ c, l.head? = some c → isS c = false)
    (hl : ∀ c, l.getLast? = some c → isS c = false) :
    stripWs isS l = l := by
  unfold stripWs
  have hd : l.dropWhile isS = l := by
    cases l with
    | nil => rfl
    | cons a t =>
      rw [List.dropWhile_cons, if_neg (by simp [hh a rfl])]
  rw [hd]
  rw [List.rdropWhile_eq_self_iff]
  intro hne
  have hsome : l.getLast? = some (l.getLast hne) := List.getLast?_eq_getLast l hne
  simp [hl _ hsome]

/-! ## Newline-collapse lemmas -/

theorem noTripleNl_cons {a : Char} {r : Str} :
    noTripleNl (a :: r) =
      (!(a == '\n' && r.take 2 == ['\n', '\n']) && noTripleNl r) := rfl

theorem take_two_ne_nl {r : Str} (hr : ∀ c, r.head? = some c → c ≠ '\n') :
    (r.take 2 == ['\n', '\n']) = false := by
  cases r with
  | nil => rfl
  | cons c cs =>
    have hc := hr c rfl
    apply Bool.eq_false_iff.mpr
    intro heq
    have h := eq_of_beq heq
    rw [List.take_succ_cons] at h
    injection h with h1 _
    exact hc h1

theorem noTriple_one_nl {r : Str} (hr : ∀ c, r.head? = some c → c ≠ '\n')
    (h : noTripleNl r = true) : noTripleNl ('\n' :: r) = true := by
  rw [noTripleNl_cons, h, Bool.and_true, take_two_ne_nl hr]
  rfl

theorem noTriple_two_nl {r : Str} (hr : ∀ c, r.head? = some c → c ≠ '\n')
    (h : noTripleNl r = true) : noTripleNl ('\n' :: '\n' :: r) = true := by
  rw [noTripleNl_cons, noTriple_one_nl hr h, Bool.and_true]
  have htake : (('\n' :: r).take 2 == ['\n', '\n']) = false := by
    cases r with
    | nil => rfl
    | cons c cs =>
      have hc := hr c rfl
      apply Bool.eq_false_iff.mpr
      intro heq
      have h' := eq_of_beq heq
      rw [List.take_succ_cons, List.take_succ_cons] at h'
      injection h' with _ h2
      injection h2 with h3 _
      exact hc h3
  rw [htake]
  rfl

theorem noTriple_nlEmit {k : Nat} {r : Str}
    (hr : ∀ c, r.head? = some c → c ≠ '\n') (h : noTripleNl r = true) :
    noTripleNl (nlEmit k r) = true := by
  unfold nlEmit
  by_cases h3 : 3 ≤ k
  · rw [if_pos h3]
    exact noTriple_two_nl hr h
  · rw [if_neg h3]
    interval_cases k
    · exact h
    · exact noTriple_one_nl hr h
    · exact noTriple_two_nl hr h

theorem noTriple_collapseNewlines :
    (l : Str) →
      noTripleNl (collapseNewlines l) = true ∧
        ∀ k, noTripleNl (nlRun k l) = true
  | [] => by
    refine ⟨rfl, fun k => ?_⟩
    rw [nlRun]
    exact noTriple_nlEmit (fun c h => by simp at h) rfl
  | c :: cs => by
    obtain ⟨ih1, ih2⟩ := noTriple_collapseNewlines cs
    have hcons : c ≠ '\n' → noTripleNl (c :: collapseNewlines cs) = true := by
      intro hc
      rw [noTripleNl_cons, ih1, Bool.and_true]
      simp [hc]
    constructor
    · rw [collapseNewlines]
      by_cases hc : c = '\n'
      · rw [if_pos hc]
        exact ih2 1
      · rw [if_neg hc]
        exact hcons hc
    · intro k
      rw [nlRun]
      by_cases hc : c = '\n'
      · rw [if_pos hc]
        exact ih2 (k + 1)
      · rw [if_neg hc]
        refine noTriple_nlEmit ?_ (hcons hc)
        intro d hd
        rw [List.head?_cons, Option.some.injEq] at hd
        subst hd
        exact hc

theorem noTriple_removeSubscription {c1 : Str}
    (h : occursStr subscriptionText c1 = true) :
    noTripleNl (removeSubscription c1) = true := by
  unfold removeSubscription
  rw [if_pos h]
  exact (noTriple_collapseNewlines _).1

/-! ## POSIX path lemmas -/

theorem basename_no_slash {p : Str} : ∀ c ∈ basenamePath p, c ≠ '/' := by
  intro c hc
  unfold basenamePath at hc
  rw [List.mem_reverse] at hc
  have := List.mem_takeWhile_imp hc
  simpa using this

theorem headPart_eq (p : Str) :
    headPart p = (p.reverse.dropWhile (fun c => !(c == '/'))).reverse := by
  have key : p = (p.reverse.dropWhile (fun c => !(c == '/'))).reverse ++
      basenamePath p := by
    conv_lhs => rw [← List.reverse_reverse p,
      ← List.takeWhile_append_dropWhile (fun c => !(c == '/')) p.reverse]
    rw [List.reverse_append]
    rfl
  have hlen : p.length =
      (p.reverse.dropWhile (fun c => !(c == '/'))).reverse.length +
        (basenamePath p).length := by
    conv_lhs => rw [key]
    rw [List.length_append]
  unfold headPart
  have hsub : p.length - (basenamePath p).length =
      (p.reverse.dropWhile (fun c => !(c == '/'))).reverse.length := by omega
  rw [hsub]
  nth_rewrite 2 [key]
  exact List.take_left _ _

theorem headPart_append_basename (p : Str) :
    headPart p ++ basenamePath p = p := by
  rw [headPart_eq]
  conv_rhs => rw [← List.reverse_reverse p,
    ← List.takeWhile_append_dropWhile (fun c => !(c == '/')) p.reverse]
  rw [List.reverse_append]
  rfl

theorem headPart_getLast {p : Str} (h : headPart p ≠ []) :
    (headPart p).getLast? = some '/' := by
  rw [headPart_eq] at h ⊢
  rw [List.getLast?_reverse]
  have hne : p.reverse.dropWhile (fun c => !(c == '/')) ≠ [] := by
    intro hnil
    rw [hnil] at h
    exact h rfl
  have hhead := List.head_dropWhile_not (fun c => !(c == '/')) p.reverse hne
  rw [List.head?_eq_head hne]
  have : (p.reverse.dropWhile (fun c => !(c == '/'))).head hne = '/' := by
    have := hhead
    simp only [Bool.not_eq_false'] at this
    exact eq_of_beq this
  rw [this]

theorem basename_append_free {h f : Str}
    (hf : ∀ c ∈ f, c ≠ '/')
    (hh : h = [] ∨ h.getLast? = some '/') :
    basenamePath (h ++ f) = f := by
  unfold basenamePath
  rw [List.reverse_append]
  have hfall : ∀ x ∈ f.reverse, (fun c => !(c == '/')) x = true := by
    intro x hx
    rw [List.mem_reverse] at hx
    simp [hf x hx]
  rw [takeWhile_append_all h.reverse hfall]
  rcases hh with rfl | hlast
  · simp
  · have hne : h ≠ [] := by
      intro hnil
      rw [hnil] at hlast
      simp at hlast
    cases hr : h.reverse with
    | nil => exact absurd (by simpa using hr) hne
    | cons a t =>
      have ha : a = '/' := by
        have hh2 : h = (a :: t).reverse := by rw [← hr, List.reverse_reverse]
        rw [hh2, List.reverse_cons, List.getLast?_concat] at hlast
        exact (Option.some.injEq _ _ ▸ hlast)
      subst ha
      rw [List.takeWhile_cons]
      simp

theorem headPart_append_free {h f : Str}
    (hf : ∀ c ∈ f, c ≠ '/')
    (hh : h = [] ∨ h.getLast? = some '/') :
    headPart (h ++ f) = h := by
  unfold headPart
  rw [basename_append_free hf hh, List.length_append]
  have : h.length + f.length - f.length = h.length := by omega
  rw [this, List.take_left]

/-! ## find_all as a filter of the document-order traversal -/

mutual
theorem findAllN_eq_filter (p : Node → Bool) :
    (n : Node) → findAllN p n = (descN n).filter p
  | .text s => by
    rw [findAllN, descN]
    cases h : p (.text s) <;> simp [List.filter, h]
  | .elem t c ch => by
    rw [findAllN, descN]
    have ih := findAllL_eq_filter p ch
    cases h : p (.elem t c ch) <;> simp [List.filter, h, ih]
theorem findAllL_eq_filter (p : Node → Bool) :
    (ns : NodeList) → findAllL p ns = (descL ns).filter p
  | .nil => rfl
  | .cons n ns => by
    rw [findAllL, descL, List.filter_append,
      findAllN_eq_filter p n, findAllL_eq_filter p ns]
end

/-! ## Post-processing dispatch -/

theorem run_post_processing_id {u t c : Str}
    (h : get_handler u ≠ some Handler.cenital) :
    run_post_processing u t c = (t, c) := by
  unfold run_post_processing
  cases hg : get_handler u with
  | none => rfl
  | some hh =>
    cases hh with
    | substack => rfl
    | cenital => exact absurd hg h

/-! ## Sanitizer membership and structure lemmas -/

theorem head?_of_prefix {l₁ l₂ : Str} {c : Char} (h : l₁ <+: l₂)
    (hc : l₁.head? = some c) : l₂.head? = some c := by
  obtain ⟨t, rfl⟩ := h
  cases l₁ with
  | nil => simp at hc
  | cons a t₁ => simpa using hc

theorem mem_sanitize {u : UnicodeModel} {x : Str} {c : Char}
    (hc : c ∈ sanitize_text_for_kindle u x) :
    c = ' ' ∨
      (keepChar u c = true ∧ u.spaceChar c = false ∧ u.combining c = false ∧
        ∃ a ∈ x, c ∈ u.decomp a) := by
  unfold sanitize_text_for_kindle at hc
  by_cases hx : x = []
  · rw [if_pos hx] at hc
    rw [hx] at hc
    simp at hc
  · rw [if_neg hx] at hc
    have h1 : c ∈ collapseWs u.spaceChar
        (((x.flatMap u.decomp).filter (fun c => !u.combining c)).filter
          (keepChar u)) := by
      have step1 := (List.rdropWhile_prefix u.spaceChar _).subset hc
      exact (List.dropWhile_sublist u.spaceChar).subset step1
    rcases mem_collapseWs _ h1 with hsp | ⟨hmem, hns⟩
    · exact Or.inl hsp
    · rw [List.mem_filter] at hmem
      obtain ⟨hmem2, hkeep⟩ := hmem
      rw [List.mem_filter] at hmem2
      obtain ⟨hmem3, hcomb⟩ := hmem2
      rw [List.mem_flatMap] at hmem3
      exact Or.inr ⟨hkeep, hns, by simpa using hcomb, hmem3⟩

theorem spacesOk_sanitize {u : UnicodeModel} {x : Str} :
    spacesOk u.spaceChar (sanitize_text_for_kindle u x) = true := by
  unfold sanitize_text_for_kindle
  by_cases hx : x = []
  · rw [if_pos hx, hx]
    rfl
  · rw [if_neg hx]
    exact spacesOk_stripWs (spacesOk_collapseWs _)

theorem sanitize_head_not_space {u : UnicodeModel} {x : Str} {c : Char}
    (h : (sanitize_text_for_kindle u x).head? = some c) :
    u.spaceChar c = false := by
  unfold sanitize_text_for_kindle at h
  by_cases hx : x = []
  · rw [if_pos hx, hx] at h
    simp at h
  · rw [if_neg hx] at h
    set z := collapseWs u.spaceChar
      (((x.flatMap u.decomp).filter (fun c => !u.combining c)).filter
        (keepChar u)) with hz
    have h2 : (z.dropWhile u.spaceChar).head? = some c :=
      head?_of_prefix (List.rdropWhile_prefix u.spaceChar _) h
    have hne : z.dropWhile u.spaceChar ≠ [] := by
      intro hnil
      rw [hnil] at h2
      simp at h2
    have := List.head_dropWhile_not u.spaceChar z hne
    rw [List.head?_eq_head hne] at h2
    rw [Option.some.injEq] at h2
    rw [← h2]
    exact this

theorem sanitize_getLast_not_space {u : UnicodeModel} {x : Str} {c : Char}
    (h : (sanitize_text_for_kindle u x).getLast? = some c) :
    u.spaceChar c = false := by
  unfold sanitize_text_for_kindle at h
  by_cases hx : x = []
  · rw [if_pos hx, hx] at h
    simp at h
  · rw [if_neg hx] at h
    set w := (collapseWs u.spaceChar
      (((x.flatMap u.decomp).filter (fun c => !u.combining c)).filter
        (keepChar u))).dropWhile u.spaceChar with hw
    have hne : w.rdropWhile u.spaceChar ≠ [] := by
      intro hnil
      rw [stripWs] at h
      rw [← hw, hnil] at h
      simp at h
    have hlast := List.rdropWhile_last_not u.spaceChar w hne
    have hsome : (w.rdropWhile u.spaceChar).getLast? =
        some ((w.rdropWhile u.spaceChar).getLast hne) :=
      List.getLast?_eq_getLast _ hne
    rw [stripWs, ← hw] at h
    rw [h] at hsome
    rw [Option.some.injEq] at hsome
    rw [hsome]
    simpa using hlast

/-- `get_text(strip=True)` of an element whose content is a single text node
is that text, stripped. -/
theorem getTextStrip_single (tg : Str) (cls : List Str) (s : Str) :
    getTextStrip (Node.elem tg cls (NodeList.cons (Node.text s) NodeList.nil)) =
      pyStrip s := by
  simp [getTextStrip, nodeTexts, listTexts]

/-! ## Claim theorems -/

/-- C5: Domain resolution parses the URL's network location, strips a leading
`www.`, returns the exact-match handler if registered, and otherwise the
first registered handler whose domain is a proper parent of the candidate
(candidate = label + "." + domain); resolving
`https://sub.substack.com/p/x` yields the substack override and resolving
`https://example.com` yields none. -/
theorem c5_domain_resolution :
    get_handler (str "https://sub.substack.com/p/x") = some Handler.substack
    ∧ get_handler (str "https://example.com") = none
    ∧ ∀ url : Str,
        (get_handler url = some Handler.substack ↔
          stripWww (netloc url) = str "substack.com" ∨
            (stripWww (netloc url) ≠ str "cenital.com" ∧
              ∃ s, stripWww (netloc url) = s ++ str ".substack.com"))
        ∧ (get_handler url = some Handler.cenital ↔
            stripWww (netloc url) ≠ str "substack.com" ∧
              (stripWww (netloc url) = str "cenital.com" ∨
                ((¬ ∃ s, stripWww (netloc url) = s ++ str ".substack.com") ∧
                  ∃ s, stripWww (netloc url) = s ++ str ".cenital.com"))) := by
  refine ⟨by decide, by decide, fun url => ?_⟩
  by_cases hurl : url = []
  · subst hurl
    constructor
    · refine iff_of_false (by decide) ?_
      rintro (h | ⟨_, hex⟩)
      · exact absurd h (by decide)
      · exact not_exists_append_of_length_lt (by decide) hex
    · refine iff_of_false (by decide) ?_
      rintro ⟨_, (h | ⟨_, hex⟩)⟩
      · exact absurd h (by decide)
      · exact not_exists_append_of_length_lt (by decide) hex
  · rw [get_handler_of_ne_nil hurl]
    exact ⟨resolveDomain_eq_substack, resolveDomain_eq_cenital⟩

/-- C10: the sanitizer passes falsy input (missing or empty string) through
unchanged, without running the pipeline. -/
theorem c10_empty_passthrough :
    ∀ u : UnicodeModel,
      sanitizeOpt u none = none ∧ sanitizeOpt u (some []) = some [] ∧
        sanitize_text_for_kindle u [] = [] :=
  fun _ => ⟨rfl, rfl, rfl⟩

set_option maxRecDepth 100000 in
/-- C7: the Cenital override truncates the body at `"Otras lecturas"` if
present, removes the fixed subscription paragraph by exact match if present,
and collapses newline runs so that no run of three or more newlines (two or
more blank lines) survives; bodies containing neither string are unchanged.
In particular, a body with the subscription paragraph followed by four blank
lines and more text comes back with the paragraph gone and exactly one blank
line. -/
theorem c7_cenital_postprocessing :
    (∀ t : Str,
        post_processing Handler.cenital t cenitalExampleBody =
          (t, str "Intro\n\nMore"))
    ∧ (∀ t : Str,
        post_processing Handler.cenital t cenitalTruncBody =
          (t, str "Body text."))
    ∧ (∀ t c : Str, occursStr otrasMarker c = false →
        occursStr subscriptionText c = false →
        post_processing Handler.cenital t c = (t, c))
    ∧ (∀ t c : Str, occursStr subscriptionText (truncOtras c) = true →
        noTripleNl (post_processing Handler.cenital t c).2 = true) := by
  refine ⟨?_, ?_, ?_, ?_⟩
  · intro t
    have h : cenital_content cenitalExampleBody = str "Intro\n\nMore" := by
      decide
    show (t, cenital_content cenitalExampleBody) = _
    rw [h]
  · intro t
    have h : cenital_content cenitalTruncBody = str "Body text." := by decide
    show (t, cenital_content cenitalTruncBody) = _
    rw [h]
  · intro t c h1 h2
    show (t, cenital_content c) = (t, c)
    rw [cenital_content, truncOtras_of_not_occurs h1]
    unfold removeSubscription
    rw [if_neg (by simp [h2])]
  · intro t c hocc
    show noTripleNl (cenital_content c) = true
    rw [cenital_content]
    exact noTriple_removeSubscription hocc

set_option maxRecDepth 100000 in
/-- C7 witness: the hypothesis-bearing parts of `c7_cenital_postprocessing`
applied at concrete inputs. -/
theorem c7_witness :
    post_processing Handler.cenital (str "T") (str "Hello") =
      (str "T", str "Hello")
    ∧ noTripleNl (post_processing Handler.cenital (str "T")
        cenitalExampleBody).2 = true :=
  ⟨c7_cenital_postprocessing.2.2.1 (str "T") (str "Hello") (by decide)
      (by decide),
   c7_cenital_postprocessing.2.2.2 (str "T") cenitalExampleBody (by decide)⟩

/-- C6 (amended): every substack URL (www-prefixed and subdomain forms
included) is refused by pre-validation with the fixed non-empty message, and
the interactive mode then returns to the menu without extracting (hence
without any HTML fetch); the command-line mode, however, never runs
pre-validation (see the counterexample). -/
theorem c6_substack_prevalidation_amended :
    ∀ url : Str, isSubstackDomain (stripWww (netloc url)) →
      run_pre_validation url = (false, some substackMessage)
      ∧ substackMessage ≠ []
      ∧ interactive_handle_url url = UrlOutcome.backToMenu := by
  intro url hd
  have hh := get_handler_of_substack_domain hd
  have hpre : run_pre_validation url = (false, some substackMessage) := by
    unfold run_pre_validation
    rw [hh]
    rfl
  have hmsg : substackMessage ≠ [] := by decide
  refine ⟨hpre, hmsg, ?_⟩
  have hurl : url ≠ [] := by
    intro hnil
    subst hnil
    exact substack_domain_ne_nil hd rfl
  unfold interactive_handle_url
  rw [if_neg hurl, hpre]
  simp only [hmsg]
  rw [if_pos hmsg]

set_option maxRecDepth 100000 in
/-- C6 witness: `c6_substack_prevalidation_amended` at a concrete subdomain
URL. -/
theorem c6_witness :
    run_pre_validation (str "https://foo.substack.com/p/a") =
      (false, some substackMessage)
    ∧ substackMessage ≠ []
    ∧ interactive_handle_url (str "https://foo.substack.com/p/a") =
        UrlOutcome.backToMenu :=
  c6_substack_prevalidation_amended (str "https://foo.substack.com/p/a")
    (Or.inr ⟨str "foo", by decide⟩)

set_option maxRecDepth 100000 in
/-- C6 counterexample: for a substack URL, pre-validation refuses with a
non-empty message, yet the command-line mode still proceeds to URL extraction
(which performs the HTML fetch), because `CommandLineMode._extract_article`
never consults pre-validation.  This falsifies the claim's "no HTML fetch is
attempted afterward" for the command-line path it cites. -/
theorem c6_counterexample :
    run_pre_validation (str "https://x.substack.com/p/a") =
      (false, some substackMessage)
    ∧ substackMessage ≠ []
    ∧ cli_extract_source (some (str "https://x.substack.com/p/a")) none =
        CliSource.fromUrl (str "https://x.substack.com/p/a") := by
  refine ⟨by decide, by decide, by decide⟩

/-- C2 (amended): URL mode titles from the first `<h1>` (stripped text) when
one exists and falls back to the URL's host when none does.  File mode,
however, prefers the `<title>` element over `<h1>`: the `<h1>` text is used
only when no `<title>` element exists; when the chosen element's text is
empty, or neither element exists, the file's base name with `.html` removed
is used. -/
theorem c2_title_rules_amended :
    (∀ (doc : NodeList) (url tg : Str) (cls : List Str) (s : Str),
        findFirstL (tagIs (str "h1")) doc =
          some (Node.elem tg cls (NodeList.cons (Node.text s) NodeList.nil)) →
        pyStrip s ≠ [] →
        urlTitle doc url = pyStrip s)
    ∧ (∀ (doc : NodeList) (url : Str),
        findFirstL (tagIs (str "h1")) doc = none →
        urlTitle doc url = netloc url)
    ∧ (∀ (doc : NodeList) (path tg : Str) (cls : List Str) (s : Str),
        findFirstL (tagIs (str "title")) doc =
          some (Node.elem tg cls (NodeList.cons (Node.text s) NodeList.nil)) →
        pyStrip s ≠ [] →
        fileTitle doc path = pyStrip s)
    ∧ (∀ (doc : NodeList) (path tg : Str) (cls : List Str) (s : Str),
        findFirstL (tagIs (str "title")) doc = none →
        findFirstL (tagIs (str "h1")) doc =
          some (Node.elem tg cls (NodeList.cons (Node.text s) NodeList.nil)) →
        pyStrip s ≠ [] →
        fileTitle doc path = pyStrip s)
    ∧ (∀ (doc : NodeList) (path : Str),
        findFirstL (tagIs (str "title")) doc = none →
        findFirstL (tagIs (str "h1")) doc = none →
        fileTitle doc path = fileFallbackTitle path) := by
  refine ⟨?_, ?_, ?_, ?_, ?_⟩
  · intro doc url tg cls s hfind hs
    unfold urlTitle
    rw [hfind]
    exact getTextStrip_single tg cls s
  · intro doc url hfind
    unfold urlTitle
    rw [hfind]
  · intro doc path tg cls s hfind hs
    unfold fileTitle
    rw [hfind]
    show (if getTextStrip (Node.elem tg cls
        (NodeList.cons (Node.text s) NodeList.nil)) = [] then
        fileFallbackTitle path else _) = pyStrip s
    rw [getTextStrip_single, if_neg hs]
  · intro doc path tg cls s hnone hfind hs
    unfold fileTitle
    rw [hnone, hfind]
    show (if getTextStrip (Node.elem tg cls
        (NodeList.cons (Node.text s) NodeList.nil)) = [] then
        fileFallbackTitle path else _) = pyStrip s
    rw [getTextStrip_single, if_neg hs]
  · intro doc path hnone1 hnone2
    unfold fileTitle
    rw [hnone1, hnone2]

/-- C2 witness: `c2_title_rules_amended` at concrete documents for each of
its five cases. -/
theorem c2_witness :
    urlTitle cenitalMarkerDoc (str "https://cenital.com/a") = pyStrip (str "T")
    ∧ urlTitle articleContentDoc (str "https://example.com/x") =
        netloc (str "https://example.com/x")
    ∧ fileTitle titleAndH1Doc (str "f.html") = pyStrip (str "T")
    ∧ fileTitle cenitalMarkerDoc (str "c.html") = pyStrip (str "T")
    ∧ fileTitle articleContentDoc (str "a.html") =
        fileFallbackTitle (str "a.html") :=
  ⟨c2_title_rules_amended.1 cenitalMarkerDoc (str "https://cenital.com/a")
      (str "h1") [] (str "T") rfl (by decide),
   c2_title_rules_amended.2.1 articleContentDoc (str "https://example.com/x")
      rfl,
   c2_title_rules_amended.2.2.1 titleAndH1Doc (str "f.html")
      (str "title") [] (str "T") rfl (by decide),
   c2_title_rules_amended.2.2.2.1 cenitalMarkerDoc (str "c.html")
      (str "h1") [] (str "T") rfl rfl (by decide),
   c2_title_rules_amended.2.2.2.2 articleContentDoc (str "a.html") rfl rfl⟩

/-- C2 counterexample: the claim says that in file mode, too, a non-empty
`<h1>` provides the title.  In `titleAndH1Doc` the first `<h1>` has the
non-empty stripped text `H`, yet file-mode extraction titles the document
`T`, the text of the `<title>` element, which the code checks first. -/
theorem c2_counterexample :
    findFirstL (tagIs (str "h1")) titleAndH1Doc =
      some (Node.elem (str "h1") []
        (NodeList.cons (Node.text (str "H")) NodeList.nil))
    ∧ getTextStrip (Node.elem (str "h1") []
        (NodeList.cons (Node.text (str "H")) NodeList.nil)) = str "H"
    ∧ str "H" ≠ []
    ∧ fileTitle titleAndH1Doc (str "f.html") = str "T"
    ∧ str "T" ≠ str "H" := ⟨rfl, by decide, by decide, by decide, by decide⟩

/-- C8: in the structural fallback tier the extracted body is built from
exactly the `p`/`h2`/`h3`/`h4` descendants of the chosen container in
document order (`find_all` is the document-order traversal filtered by those
tags), each block's text stripped (for a simple text element this is the
trimmed text), empty blocks dropped and the rest joined with the blank-line
delimiter; on the spec's example document both extraction modes produce
`"A\n\nB"`. -/
theorem c8_structural_body :
    (∀ mc : Node, findAllPH mc = (descendantsUnder mc).filter isPH)
    ∧ (∀ mc : Node, containerContent mc =
        joinBlocks ((((descendantsUnder mc).filter isPH).map
          getTextStrip).filter (fun b => b ≠ [])))
    ∧ (∀ (tg : Str) (cls : List Str) (s : Str),
        getTextStrip (Node.elem tg cls
          (NodeList.cons (Node.text s) NodeList.nil)) = pyStrip s)
    ∧ extract_article none (some articleContentDoc) (str "https://example.com/x")
        = Except.ok (str "example.com", str "A\n\nB")
    ∧ extract_from_file articleContentDoc (str "a.html")
        = Except.ok (str "a", str "A\n\nB") := by
  have h1 : ∀ mc : Node, findAllPH mc = (descendantsUnder mc).filter isPH := by
    intro mc
    cases mc with
    | text s => rfl
    | elem t c ch =>
      unfold findAllPH descendantsUnder
      exact findAllL_eq_filter isPH ch
  refine ⟨h1, ?_, getTextStrip_single, rfl, rfl⟩
  intro mc
  unfold containerContent
  rw [h1]

theorem dirnamePath_eq (q : Str) :
    dirnamePath q =
      if headPart q ≠ [] ∧ (headPart q).any (fun c => !(c == '/')) then
        (headPart q).rdropWhile (fun c => c == '/')
      else headPart q := rfl

theorem pathJoin_spec (p f : Str)
    (hf : ∀ c ∈ f, c ≠ '/') (hfh : f.head? ≠ some '/') (hfne : f ≠ []) :
    basenamePath (pathJoin (dirnamePath p) f) = f
    ∧ dirnamePath (pathJoin (dirnamePath p) f) = dirnamePath p
    ∧ pathJoin (dirnamePath p) f ≠ [] := by
  by_cases hcond : headPart p ≠ [] ∧ (headPart p).any (fun c => !(c == '/'))
  · rw [dirnamePath_eq p, if_pos hcond]
    set d := (headPart p).rdropWhile (fun c => c == '/') with hd
    have hdne : d ≠ [] := by
      rw [hd]
      intro hnil
      rw [List.rdropWhile_eq_nil_iff] at hnil
      rcases List.any_eq_true.mp hcond.2 with ⟨c, hc, hcs⟩
      have := hnil c hc
      rw [this] at hcs
      simp at hcs
    have hdlast : d.getLast? ≠ some '/' := by
      have hlast := List.rdropWhile_last_not (fun c => c == '/') (headPart p) hdne
      have hsome : d.getLast? = some (d.getLast hdne) :=
        List.getLast?_eq_getLast _ hdne
      rw [hsome]
      intro hcontra
      rw [Option.some.injEq] at hcontra
      rw [hcontra] at hlast
      simp at hlast
    have hjoin : pathJoin d f = (d ++ ['/']) ++ f := by
      unfold pathJoin
      rw [if_neg hfh, if_neg (by push_neg; exact ⟨hdne, hdlast⟩)]
      simp
    have hbn : basenamePath ((d ++ ['/']) ++ f) = f :=
      basename_append_free hf (Or.inr (by rw [List.getLast?_concat]))
    have hhp : headPart ((d ++ ['/']) ++ f) = d ++ ['/'] :=
      headPart_append_free hf (Or.inr (by rw [List.getLast?_concat]))
    refine ⟨by rw [hjoin, hbn], ?_, by rw [hjoin]; simp⟩
    rw [hjoin, dirnamePath_eq ((d ++ ['/']) ++ f), hhp]
    have hany : (d ++ ['/']).any (fun c => !(c == '/')) = true := by
      rw [List.any_eq_true]
      refine ⟨d.getLast hdne, List.mem_append_left _ (List.getLast_mem hdne), ?_⟩
      have hsome : d.getLast? = some (d.getLast hdne) :=
        List.getLast?_eq_getLast _ hdne
      have hne' : d.getLast hdne ≠ '/' := by
        intro hc
        exact hdlast (by rw [hsome, hc])
      simp [hne']
    rw [if_pos ⟨by simp, hany⟩]
    rw [List.rdropWhile_concat, if_pos (by simp)]
    exact List.rdropWhile_eq_self_iff.mpr (fun hne => by
      have hsome : d.getLast? = some (d.getLast hne) :=
        List.getLast?_eq_getLast _ hne
      intro hcontra
      exact hdlast (by rw [hsome, eq_of_beq hcontra]))
  · rw [dirnamePath_eq p, if_neg hcond]
    push_neg at hcond
    by_cases hnil : headPart p = []
    · have hjoin : pathJoin (headPart p) f = f := by
        unfold pathJoin
        rw [if_neg hfh, if_pos (Or.inl hnil), hnil]
        simp
      have hbn : basenamePath ([] ++ f) = f :=
        basename_append_free hf (Or.inl rfl)
      simp only [List.nil_append] at hbn
      have hhp : headPart ([] ++ f) = [] :=
        headPart_append_free hf (Or.inl rfl)
      simp only [List.nil_append] at hhp
      refine ⟨by rw [hjoin, hbn], ?_, by rw [hjoin]; exact hfne⟩
      rw [hjoin, dirnamePath_eq f, hhp, hnil]
      simp
    · have hlast : (headPart p).getLast? = some '/' := headPart_getLast hnil
      have hjoin : pathJoin (headPart p) f = headPart p ++ f := by
        unfold pathJoin
        rw [if_neg hfh, if_pos (Or.inr hlast)]
      have hbn : basenamePath (headPart p ++ f) = f :=
        basename_append_free hf (Or.inr hlast)
      have hhp : headPart (headPart p ++ f) = headPart p :=
        headPart_append_free hf (Or.inr hlast)
      refine ⟨by rw [hjoin, hbn], ?_, ?_⟩
      · rw [hjoin, dirnamePath_eq (headPart p ++ f), hhp,
          if_neg (by
            push_neg
            intro hne
            exact hcond hne)]
      · rw [hjoin]
        intro hcontra
        rw [List.append_eq_nil] at hcontra
        exact hfne hcontra.2

theorem sentMarker_no_slash : ∀ c ∈ sentMarker, c ≠ '/' := by decide

/-- C9: marking a file as sent is idempotent: a path whose base name already
starts with `"[SENT] "` is returned unchanged without renaming; any other
(non-empty) path is renamed, in the same directory, to `"[SENT] "` prepended
to the original base name, and renaming the result again is the identity. -/
theorem c9_rename_sent_idempotent :
    ∀ p : Str, p ≠ [] →
      (sentMarker.isPrefixOf (basenamePath p) = true →
        rename_html_file p = some p)
      ∧ (sentMarker.isPrefixOf (basenamePath p) = false →
          rename_html_file p =
            some (pathJoin (dirnamePath p) (sentMarker ++ basenamePath p))
          ∧ basenamePath (pathJoin (dirnamePath p)
              (sentMarker ++ basenamePath p)) = sentMarker ++ basenamePath p
          ∧ dirnamePath (pathJoin (dirnamePath p)
              (sentMarker ++ basenamePath p)) = dirnamePath p
          ∧ rename_html_file (pathJoin (dirnamePath p)
              (sentMarker ++ basenamePath p)) =
              some (pathJoin (dirnamePath p)
                (sentMarker ++ basenamePath p))) := by
  intro p hp
  constructor
  · intro hsent
    unfold rename_html_file
    rw [if_neg hp, if_pos hsent]
  · intro hnot
    have hf : ∀ c ∈ sentMarker ++ basenamePath p, c ≠ '/' := by
      intro c hc
      rcases List.mem_append.mp hc with hc | hc
      · exact sentMarker_no_slash c hc
      · exact basename_no_slash c hc
    have hfh : (sentMarker ++ basenamePath p).head? ≠ some '/' := by
      have : (sentMarker ++ basenamePath p).head? = some '[' := rfl
      rw [this]
      decide
    have hfne : sentMarker ++ basenamePath p ≠ [] := by
      intro hcontra
      rw [List.append_eq_nil] at hcontra
      exact absurd hcontra.1 (by decide)
    obtain ⟨hbn, hdir, hne⟩ :=
      pathJoin_spec p (sentMarker ++ basenamePath p) hf hfh hfne
    refine ⟨?_, hbn, hdir, ?_⟩
    · unfold rename_html_file
      rw [if_neg hp, if_neg (by simp [hnot])]
    · unfold rename_html_file
      rw [if_neg hne, if_pos (by
        rw [hbn]
        exact List.isPrefixOf_iff_prefix.mpr (List.prefix_append _ _))]

/-- C9 witness: `c9_rename_sent_idempotent` at concrete paths. -/
theorem c9_witness :
    rename_html_file (str "a/b/[SENT] c.html") = some (str "a/b/[SENT] c.html")
    ∧ rename_html_file (str "a/b/c.html") =
        some (pathJoin (dirnamePath (str "a/b/c.html"))
          (sentMarker ++ basenamePath (str "a/b/c.html")))
    ∧ basenamePath (pathJoin (dirnamePath (str "a/b/c.html"))
        (sentMarker ++ basenamePath (str "a/b/c.html"))) =
        sentMarker ++ basenamePath (str "a/b/c.html")
    ∧ dirnamePath (pathJoin (dirnamePath (str "a/b/c.html"))
        (sentMarker ++ basenamePath (str "a/b/c.html"))) =
        dirnamePath (str "a/b/c.html") :=
  ⟨(c9_rename_sent_idempotent (str "a/b/[SENT] c.html") (by decide)).1
      (by decide),
   ((c9_rename_sent_idempotent (str "a/b/c.html") (by decide)).2
      (by decide)).1,
   ((c9_rename_sent_idempotent (str "a/b/c.html") (by decide)).2
      (by decide)).2.1,
   ((c9_rename_sent_idempotent (str "a/b/c.html") (by decide)).2
      (by decide)).2.2.1⟩

theorem extractFallback_nonempty {fetched : Option NodeList} {url t b : Str}
    (hnc : get_handler url ≠ some Handler.cenital)
    (hok : extract_article.extractFallback fetched url = Except.ok (t, b)) :
    t ≠ [] ∧ b ≠ [] := by
  unfold extract_article.extractFallback at hok
  split at hok
  · exact Except.noConfusion hok
  · split at hok
    · exact Except.noConfusion hok
    · split at hok
      · exact Except.noConfusion hok
      · rename_i hcond
        rw [run_post_processing_id hnc] at hok
        rw [Except.ok.injEq, Prod.mk.injEq] at hok
        push_neg at hcond
        rw [← hok.1, ← hok.2]
        exact hcond

/-- C1 (amended): for every source that does not resolve to the Cenital
override, extraction either fails or returns a non-empty body, and in URL
mode also a non-empty title.  (Unrestricted, the claim fails: the Cenital
post-processing runs after the non-emptiness check and can empty the body —
see the counterexample; file mode also never re-checks the title.) -/
theorem c1_no_cenital_nonempty :
    (∀ (tier1 : Option (Str × Str)) (fetched : Option NodeList)
        (url t b : Str),
        get_handler url ≠ some Handler.cenital →
        extract_article tier1 fetched url = Except.ok (t, b) →
        t ≠ [] ∧ b ≠ [])
    ∧ (∀ (doc : NodeList) (path t b : Str),
        get_handler path ≠ some Handler.cenital →
        extract_from_file doc path = Except.ok (t, b) →
        b ≠ []) := by
  constructor
  · intro tier1 fetched url t b hnc hok
    unfold extract_article at hok
    split at hok
    · rename_i t0 c0
      split at hok
      · rename_i h0
        rw [run_post_processing_id hnc] at hok
        rw [Except.ok.injEq, Prod.mk.injEq] at hok
        rw [← hok.1, ← hok.2]
        exact h0
      · exact extractFallback_nonempty hnc hok
    · exact extractFallback_nonempty hnc hok
  · intro doc path t b hnc hok
    unfold extract_from_file at hok
    split at hok
    · exact Except.noConfusion hok
    · split at hok
      · exact Except.noConfusion hok
      · split at hok
        · exact Except.noConfusion hok
        · rename_i hne
          rw [run_post_processing_id hnc] at hok
          rw [Except.ok.injEq, Prod.mk.injEq] at hok
          rw [← hok.2]
          exact hne

/-- C1 counterexample: extraction can succeed with an empty body.  For a
`cenital.com` URL whose only paragraph is exactly `"Otras lecturas"`, the
structural tier passes its non-emptiness check, but the Cenital
post-processing then truncates the body to the empty string, and
`extract_article` returns it as a success instead of failing. -/
theorem c1_counterexample :
    extract_article none (some cenitalMarkerDoc) (str "https://cenital.com/a")
      = Except.ok (str "T", []) := rfl

/-- C1 witness: `c1_no_cenital_nonempty` at a concrete extraction with no
domain override. -/
theorem c1_witness : str "example.com" ≠ ([] : Str) ∧ str "A\n\nB" ≠ ([] : Str) :=
  c1_no_cenital_nonempty.1 none (some articleContentDoc)
    (str "https://example.com/x") (str "example.com") (str "A\n\nB")
    (by decide) rfl

/-- C4 (amended): for every input and every Unicode model, the sanitizer's
output contains only word characters (`\w`: alphanumerics or underscore),
single spaces, or the punctuation `- . , ! ? ( ) : ;`; every whitespace
character of the output is a literal space and is never followed by another
whitespace character (runs are collapsed), and the output neither starts nor
ends with whitespace.  (The claim's "alphanumeric" misses the underscore,
which `\w` keeps — see the counterexample.) -/
theorem c4_output_class_amended (u : UnicodeModel) (x : Str) :
    (∀ c ∈ sanitize_text_for_kindle u x,
        c = ' ' ∨ u.wordChar c = true ∨ c ∈ allowedPunct)
    ∧ (∀ c ∈ sanitize_text_for_kindle u x, u.spaceChar c = true → c = ' ')
    ∧ spacesOk u.spaceChar (sanitize_text_for_kindle u x) = true
    ∧ (∀ c, (sanitize_text_for_kindle u x).head? = some c →
        u.spaceChar c = false)
    ∧ (∀ c, (sanitize_text_for_kindle u x).getLast? = some c →
        u.spaceChar c = false) := by
  refine ⟨?_, ?_, spacesOk_sanitize, fun c => sanitize_head_not_space,
    fun c => sanitize_getLast_not_space⟩
  · intro c hc
    rcases mem_sanitize hc with rfl | ⟨hk, hs, _, _⟩
    · exact Or.inl rfl
    · unfold keepChar at hk
      rcases Bool.or_eq_true_iff.mp hk with hk2 | hpunct
      · rcases Bool.or_eq_true_iff.mp hk2 with hw | hsp
        · exact Or.inr (Or.inl hw)
        · rw [hsp] at hs
          cases hs
      · exact Or.inr (Or.inr (of_decide_eq_true hpunct))
  · intro c hc hsp
    rcases mem_sanitize hc with rfl | ⟨_, hs, _, _⟩
    · rfl
    · rw [hs] at hsp
      cases hsp

/-- C4 counterexample: on input `"_"` the sanitizer returns `"_"`, and the
underscore is neither alphanumeric, nor whitespace, nor one of the allowed
punctuation characters — the output alphabet stated by the claim is too
small. -/
theorem c4_counterexample :
    sanitize_text_for_kindle asciiUM (str "_") = str "_"
    ∧ ¬(('_'.isAlphanum = true) ∨ (asciiUM.spaceChar '_' = true) ∨
        '_' ∈ allowedPunct) := by
  exact ⟨by decide, by decide⟩

/-- C4 witness: the hypothesis-bearing conjuncts of
`c4_output_class_amended` applied at concrete inputs and characters. -/
theorem c4_witness :
    ('H' = ' ' ∨ asciiUM.wordChar 'H' = true ∨ 'H' ∈ allowedPunct)
    ∧ (' ' = ' ')
    ∧ spacesOk asciiUM.spaceChar
        (sanitize_text_for_kindle asciiUM (str " a  b!x ")) = true
    ∧ asciiUM.spaceChar 'a' = false
    ∧ asciiUM.spaceChar 'x' = false :=
  ⟨(c4_output_class_amended asciiUM (str "Hi")).1 'H' (by decide),
   (c4_output_class_amended asciiUM (str "a b")).2.1 ' ' (by decide) (by decide),
   (c4_output_class_amended asciiUM (str " a  b!x ")).2.2.1,
   (c4_output_class_amended asciiUM (str " a  b!x ")).2.2.2.1 'a' (by decide),
   (c4_output_class_amended asciiUM (str " a  b!x ")).2.2.2.2 'x' (by decide)⟩

/-- C3: the sanitizer is idempotent.  The hypotheses are facts of the Unicode
character database: NFD decompositions are full (every character of a
decomposition decomposes to itself), the space character is its own
decomposition, is not a combining mark, and is regex whitespace. -/
theorem c3_sanitize_idempotent (u : UnicodeModel)
    (hfull : ∀ c d, d ∈ u.decomp c → u.decomp d = [d])
    (hspD : u.decomp ' ' = [' '])
    (hspM : u.combining ' ' = false)
    (hspS : u.spaceChar ' ' = true) (x : Str) :
    sanitize_text_for_kindle u (sanitize_text_for_kindle u x) =
      sanitize_text_for_kindle u x := by
  by_cases hy : sanitize_text_for_kindle u x = []
  · rw [hy]
    rfl
  · have hmem : ∀ c ∈ sanitize_text_for_kindle u x,
        u.decomp c = [c] ∧ u.combining c = false ∧ keepChar u c = true := by
      intro c hc
      rcases mem_sanitize hc with rfl | ⟨hk, _, hcomb, a, _, hd⟩
      · exact ⟨hspD, hspM, by simp [keepChar, hspS]⟩
      · exact ⟨hfull a c hd, hcomb, hk⟩
    conv_lhs => rw [sanitize_text_for_kindle]
    rw [if_neg hy]
    rw [flatMap_id_of_mem (fun c hc => (hmem c hc).1)]
    rw [List.filter_eq_self.mpr (fun c hc =>
      (hmem c (List.mem_filter.mp hc).1).2.2)]
    rw [List.filter_eq_self.mpr (fun c hc => by simp [(hmem c hc).2.1])]
    rw [collapseWs_eq_self spacesOk_sanitize]
    exact stripWs_eq_self (fun c => sanitize_head_not_space)
      (fun c => sanitize_getLast_not_space)

/-- C3 witness: `c3_sanitize_idempotent` on the concrete ASCII model and a
concrete string. -/
theorem c3_witness :
    sanitize_text_for_kindle asciiUM
        (sanitize_text_for_kindle asciiUM (str "  Hi,   the_re!!  ")) =
      sanitize_text_for_kindle asciiUM (str "  Hi,   the_re!!  ") :=
  c3_sanitize_idempotent asciiUM (fun _ _ _ => rfl) rfl rfl rfl
    (str "  Hi,   the_re!!  ")

end KS
